import Mathlib

/-!
Verification of the descriptor / filter-compiler core of the
`mongodb-graphql` repository.

The development shallowly embeds the TypeScript sources:

* `src/filter.ts` — `createObjectFilter` (filter-grammar generation) and
  `toMongoFilter` (compilation of a runtime filter value into a MongoDB
  `FilterQuery` document),
* `src/filterTypes.ts` — the per-kind operator sets (`createStandardFilter`,
  `GqlStringFilter`, …),
* the types module (`GqlBase`, `GqlNullable`, `createObject`, `GqlObject`,
  `GqlArgs`, the scalar constructors),
* the validation module (`convertRuleForUpdate`, `convertForUpdate`).

JavaScript objects are modelled as ordered association lists
(`List (String × _)`), JavaScript runtime values as the inductive `GqlVal`,
and GraphQL wire types as the inductive `GType`.  Assignment `o[k] = v`
is modelled by `jsSet`, which overwrites an existing key in place and
otherwise appends — exactly the observable key-order semantics of
JavaScript objects.
-/

/-- A JavaScript runtime value as it can appear in a GraphQL filter
expression or in the compiled MongoDB filter document.  `null` stands for
both `null` and `undefined` (the two are not distinguished by any of the
code paths modelled here).  Numbers are modelled as integers: the compiler
only moves them around and tests truthiness. -/
inductive GqlVal where
  | null
  | bool (b : Bool)
  | num (n : Int)
  | str (s : String)
  | arr (elems : List GqlVal)
  | obj (fields : List (String × GqlVal))

/-- A JavaScript object used as a MongoDB filter document: an ordered
association list of keys and values. -/
abbrev MDoc := List (String × GqlVal)

/-- JavaScript property assignment `o[k] = v` on an ordered object:
an existing key keeps its position and gets the new value, a new key is
appended at the end. -/
def jsSet {α : Type} (m : List (String × α)) (k : String) (v : α) : List (String × α) :=
  if m.any (fun p => p.1 = k) then m.map (fun p => if p.1 = k then (k, v) else p)
  else m ++ [(k, v)]

/-- JavaScript truthiness test (`!value` is `!falsy value`).  `NaN` is not
modelled; numbers are integers. -/
def falsy : GqlVal → Bool
  | .null => true
  | .bool b => !b
  | .num n => n == 0
  | .str s => s == ""
  | .arr _ => false
  | .obj _ => false

/-- The scope path computation of `toMongoFilter`
(`scope + (scope ? "." : "") + field`): an empty scope contributes no
leading dot. -/
def mongoPath (scope field : String) : String :=
  if scope = "" then field else scope ++ "." ++ field

/-- The key/value pairs enumerated by `Object.keys(ops || {})` together
with the lookups `ops[op]`.  Only object values carry own enumerable
properties here; on `null`, booleans and numbers `Object.keys` is empty.
(On strings and arrays the source would enumerate index keys, a path on
which it either stack-overflows or produces garbage for out-of-grammar
input; such values are outside the filter grammar and are modelled as
keyless.) -/
def opPairs : GqlVal → List (String × GqlVal)
  | .obj l => l
  | _ => []

/-- The `Exists` translation `value !== false`. -/
def existsFlag : GqlVal → Bool
  | .bool false => false
  | _ => true

/-- The `And`/`Or` list extraction `(ops || []).map(...)`: a falsy value
yields the empty list, an array yields its elements, and a truthy
non-array would make the JavaScript `map` call throw, modelled as `none`. -/
def andOrList : GqlVal → Option (List GqlVal)
  | .arr xs => some xs
  | v => if falsy v then some [] else none

/-- Size bound for the `And`/`Or` list extraction, used for termination. -/
theorem andOrList_sizeOf {ops : GqlVal} {xs : List GqlVal} (h : andOrList ops = some xs) :
    sizeOf xs ≤ sizeOf ops := by
  cases ops <;> simp [andOrList, falsy] at h <;> try subst h
  case bool b =>
    cases b <;> simp_all
  case num n =>
    rcases h with ⟨h0, hxs⟩
    subst hxs; simp
  case str s =>
    rcases h with ⟨h0, hxs⟩
    subst hxs
    simp only [List.nil.sizeOf_spec, GqlVal.str.sizeOf_spec]
    omega
  case arr elems => simp
  all_goals simp

mutual

/-- Shallow embedding of `toMongoFilter` from `src/filter.ts`.  The result
is `none` exactly when the source would throw a `TypeError` (an `And`/`Or`
key holding a truthy non-array). -/
def toMongoFilter (g : GqlVal) (scope : String) (filter : MDoc) : Option MDoc :=
  match g with
  | .obj fields => mongoFields fields scope filter
  | _ => some filter
termination_by (sizeOf g, 0)

/-- The loop of `toMongoFilter` over `Object.keys(gqlFilter || {})`,
threading the accumulator `filter`. -/
def mongoFields (fields : List (String × GqlVal)) (scope : String) (filter : MDoc) :
    Option MDoc :=
  match fields with
  | [] => some filter
  | (field, ops) :: rest =>
    if field = "And" ∨ field = "Or" then
      match h : andOrList ops with
      | none => none
      | some xs =>
        have _hxs : sizeOf xs ≤ sizeOf ops := andOrList_sizeOf h
        match mongoMap xs scope with
        | none => none
        | some subs =>
          let filter1 :=
            if 0 < subs.length then
              jsSet filter (if field = "And" then "$and" else "$or") (.arr (subs.map .obj))
            else filter
          mongoFields rest scope filter1
    else
      let fullName := mongoPath scope field
      match mongoOps ops (opPairs ops) fullName [] filter with
      | none => none
      | some (fieldFilter, filter1) =>
        let filter2 :=
          if 0 < fieldFilter.length then jsSet filter1 fullName (.obj fieldFilter) else filter1
        mongoFields rest scope filter2
termination_by (sizeOf fields, 1)

/-- The `subs` computation: `(ops || []).map(f => toMongoFilter(f, scope))`,
each element compiled against the same scope with a fresh accumulator. -/
def mongoMap (xs : List GqlVal) (scope : String) : Option (List MDoc) :=
  match xs with
  | [] => some []
  | x :: rest =>
    match toMongoFilter x scope [] with
    | none => none
    | some d =>
      match mongoMap rest scope with
      | none => none
      | some ds => some (d :: ds)
termination_by (sizeOf xs, 0)

/-- The inner loop of `toMongoFilter` over the operator keys of one field
value `ops`: the `switch` statement.  `fieldFilter` is the per-field
predicate accumulator, `filter` the outer document (written directly by
the recursive default branch). -/
def mongoOps (ops : GqlVal) (pairs : List (String × GqlVal)) (fullName : String)
    (fieldFilter : MDoc) (filter : MDoc) : Option (MDoc × MDoc) :=
  match pairs with
  | [] => some (fieldFilter, filter)
  | (op, value) :: rest =>
    if op = "Exists" then
      mongoOps ops rest fullName (jsSet fieldFilter "$exists" (.bool (existsFlag value))) filter
    else if op = "Eq" then
      mongoOps ops rest fullName (jsSet fieldFilter "$eq" value) filter
    else if op = "Neq" then
      mongoOps ops rest fullName (jsSet fieldFilter "$ne" value) filter
    else if op = "Lt" then
      mongoOps ops rest fullName (jsSet fieldFilter "$lt" value) filter
    else if op = "Lte" then
      mongoOps ops rest fullName (jsSet fieldFilter "$lte" value) filter
    else if op = "Gt" then
      mongoOps ops rest fullName (jsSet fieldFilter "$gt" value) filter
    else if op = "Gte" then
      mongoOps ops rest fullName (jsSet fieldFilter "$gte" value) filter
    else if op = "In" then
      mongoOps ops rest fullName
        (jsSet fieldFilter "$in" (if falsy value then .arr [] else value)) filter
    else if op = "Nin" then
      mongoOps ops rest fullName
        (jsSet fieldFilter "$nin" (if falsy value then .arr [] else value)) filter
    else if op = "RegEx" then
      mongoOps ops rest fullName
        (jsSet (jsSet fieldFilter "$regex" value) "$options" (.str "i")) filter
    else
      match toMongoFilter ops fullName filter with
      | none => none
      | some filter1 => mongoOps ops rest fullName fieldFilter filter1
termination_by (sizeOf ops, 2 + pairs.length)

end

/-!
## Validation rules (`fastest-validator` schemas)

A validation rule value, as handled by `convertRuleForUpdate`
(validation module): either a non-rule value such as the boolean stored
under the schema key `$$strict` (its `type` property is `undefined`), a
rule object, or a non-empty list of rules whose first element is the
primary type rule (the source comments document this invariant, and the
source would throw on an empty list).  A rule object carries its `type`
tag (the empty string models an absent tag, which JavaScript treats as
falsy exactly like `undefined`), its `optional` marker, its nested
`properties` for object rules, and an opaque bag `others` for the
remaining constraint fields (`min`, `max`, `items`, `strict`, …), which
the transformer copies through untouched.
-/

inductive VRule where
  | flag (b : Bool)
  | rule (type : String) (optional : Option Bool) (others : List (String × String))
      (properties : Option (List (String × VRule)))
  | rules (head : VRule) (tail : List VRule)

/-- A validation schema: the ordered mapping of field names (plus special
keys such as `$$strict`) to rule values. -/
abbrev VSchema := List (String × VRule)

mutual

/-- Shallow embedding of `convertRuleForUpdate` from the validation
module: force `optional` to true unless explicitly false, recurse into
the `properties` of object rules, convert the primary rule of a rule
list, and return non-rule values (no truthy `type`) unchanged. -/
def convertRuleForUpdate : VRule → VRule
  | .rules head tail => .rules (convertRuleForUpdate head) tail
  | .flag b => .flag b
  | .rule ty opt others props =>
    if ty = "" then .rule ty opt others props
    else
      let opt1 := if opt = some false then opt else some true
      if ty ≠ "object" then .rule ty opt1 others props
      else
        match props with
        | none => .rule ty opt1 others none
        | some ps => .rule ty opt1 others (some (convertPropsForUpdate ps))

/-- The loop of `convertRuleForUpdate` over the copied `properties`. -/
def convertPropsForUpdate : List (String × VRule) → List (String × VRule)
  | [] => []
  | (k, v) :: rest => (k, convertRuleForUpdate v) :: convertPropsForUpdate rest

end

/-- Shallow embedding of `convertForUpdate`: copy the schema and convert
every rule value in it. -/
def convertForUpdate (schema : VSchema) : VSchema :=
  schema.map (fun p => (p.1, convertRuleForUpdate p.2))

mutual

/-- Well-formedness of a rule value: every rule reachable by the descent
of `convertRuleForUpdate` (the rule itself, the primary rule of a rule
list, the properties of object rules) carries a type tag.  All schemas
built by the record composer satisfy this: every constructor writes a
concrete `type` into its validation rule. -/
def vruleWF : VRule → Bool
  | .flag _ => true
  | .rules head _ => vruleWF head
  | .rule ty _ _ props =>
    ty ≠ "" &&
      (if ty = "object" then
        match props with
        | none => true
        | some ps => vrulePropsWF ps
      else true)

/-- Well-formedness of an object rule property list. -/
def vrulePropsWF : List (String × VRule) → Bool
  | [] => true
  | (_, v) :: rest => vruleWF v && vrulePropsWF rest

end

mutual

/-- The relation claimed for `convertRuleForUpdate`: on every rule
reachable by recursive descent the output has `optional = true`, except
that an explicit `optional = false` of the input is preserved unchanged. -/
def optForcedOK : VRule → VRule → Bool
  | .flag _, _ => true
  | .rules head _, out =>
    match out with
    | .rules head2 _ => optForcedOK head head2
    | _ => false
  | .rule ty opt _ props, out =>
    match out with
    | .rule _ opt2 _ props2 =>
      (opt2 == (if opt = some false then some false else some true)) &&
        (if ty = "object" then
          match props, props2 with
          | none, _ => true
          | some ps, some ps2 => optForcedProps ps ps2
          | some _, none => false
        else true)
    | _ => false

/-- Pointwise lifting of `optForcedOK` to object properties. -/
def optForcedProps : List (String × VRule) → List (String × VRule) → Bool
  | [], [] => true
  | (k, v) :: rest, (k2, v2) :: rest2 =>
    (k == k2) && optForcedOK v v2 && optForcedProps rest rest2
  | _, _ => false

end

/-- The `optional` marker of the primary rule of a rule value. -/
def topOptional : VRule → Option Bool
  | .flag _ => none
  | .rules head _ => topOptional head
  | .rule _ opt _ _ => opt

/-!
## GraphQL wire types and the descriptor classes

`GType` models the `graphql-js` type language: named scalars, enums,
object and input-object types with their ordered field maps, list and
non-null wrappers.  The constructor `ref` stands for a by-name reference
to an enclosing named type: `graphql-js` represents the self-referential
`And`/`Or` fields of the outermost filter type through a lazy reference
to the input type under construction, which a finite tree can only carry
by name. -/

inductive GType where
  | scalar (name : String)
  | enum (name : String)
  | object (name : String) (fields : List (String × GType))
  | inputObject (name : String) (fields : List (String × GType))
  | list (of : GType)
  | nonNull (of : GType)
  | ref (name : String)

/-- True when the type is wrapped as non-null at the top. -/
def isNonNullG : GType → Bool
  | .nonNull _ => true
  | _ => false

/-- The `sortable` member of a descriptor: the JavaScript value is either
a boolean or an array of dotted sub-paths. -/
inductive Sortable where
  | flag (b : Bool)
  | paths (ps : List String)
deriving DecidableEq

/-- Reading the `optional` property of a validation rule value: only a
rule object can yield a boolean there. -/
def ruleOptional : VRule → Option Bool
  | .rule _ opt _ _ => opt
  | _ => none

/-- Writing the `optional` property of a validation rule object in place.
On a non-object value the JavaScript assignment is not observable through
a later `optional` read (descriptor validations are always rule
objects). -/
def ruleSetOptional (v : VRule) (b : Bool) : VRule :=
  match v with
  | .rule ty _ os ps => .rule ty (some b) os ps
  | v => v

/-- The state of a `GqlBase` descriptor after its constructor ran: the
option members (`computed`, `description`, `validation`), the sortability
and the three stored wire types.  The constructor always replaces an
absent validation rule by the empty rule object. -/
structure GqlBaseState where
  computed : Bool
  description : Option String
  validation : Option VRule
  sortable : Sortable
  graphQLType : GType
  graphQLInputType : GType
  graphQLUpdateType : GType

/-- The empty rule object `{}` the constructor assigns when no validation
was supplied: it has no type tag and no fields. -/
def emptyRule : VRule := .rule "" none [] none

/-- The scalar/enum overload of the `GqlBase` constructor: the input and
update types default to the output type. -/
def mkGqlBaseScalar (validation : Option VRule) (computed : Bool) (description : Option String)
    (sortable : Sortable) (ty : GType) : GqlBaseState :=
  { computed := computed, description := description,
    validation := some (validation.getD emptyRule), sortable := sortable,
    graphQLType := ty, graphQLInputType := ty, graphQLUpdateType := ty }

/-- The five-argument overload of the `GqlBase` constructor with explicit
input and update types. -/
def mkGqlBaseFull (validation : Option VRule) (computed : Bool) (description : Option String)
    (sortable : Sortable) (ty input update : GType) : GqlBaseState :=
  { computed := computed, description := description,
    validation := some (validation.getD emptyRule), sortable := sortable,
    graphQLType := ty, graphQLInputType := input, graphQLUpdateType := update }

/-- The truthiness of `options.validation?.optional` used by the wire
type accessors. -/
def valOptional (d : GqlBaseState) : Bool :=
  (d.validation.bind ruleOptional) == some true

/-- The `outputType` accessor: non-null unless the validation rule marks
the value optional. -/
def GqlBaseState.outputType (d : GqlBaseState) : GType :=
  if valOptional d then d.graphQLType else .nonNull d.graphQLType

/-- The `inputType` accessor: non-null unless the validation rule marks
the value optional. -/
def GqlBaseState.inputType (d : GqlBaseState) : GType :=
  if valOptional d then d.graphQLInputType else .nonNull d.graphQLInputType

/-- The `updateType` accessor: the stored update type with a top-level
non-null wrapper stripped, never reported as non-null. -/
def GqlBaseState.updateType (d : GqlBaseState) : GType :=
  match d.graphQLUpdateType with
  | .nonNull t => t
  | t => t

/-- Value-level model of `GqlNullable` as used during grammar and record
construction: mark the existing validation rule of the descriptor
optional and hand the descriptor back.  (The aliasing aspect of the same
source function — it mutates the shared rule in place and returns the
same instance — is modelled separately by the heap-passing `GqlNullable`
below.) -/
def gqlNullableVal (item : GqlBaseState) : GqlBaseState :=
  match item.validation with
  | some v => { item with validation := some (ruleSetOptional v true) }
  | none => item

/-- A heap of descriptor instances, indexed by reference identity. -/
abbrev DescrHeap := Nat → GqlBaseState

/-- Writing one heap cell in place. -/
def heapUpdate (h : DescrHeap) (id : Nat) (d : GqlBaseState) : DescrHeap :=
  fun j => if j = id then d else h j

/-- Heap-passing model of `GqlNullable` from the types module: an absent
descriptor is allowed and returned as is; otherwise the validation rule
of the referenced descriptor is mutated in place (the heap cell is
updated, no new cell is allocated) and the same reference is returned. -/
def GqlNullable (item : Option Nat) (h : DescrHeap) : Option Nat × DescrHeap :=
  match item with
  | none => (none, h)
  | some id =>
    match (h id).validation with
    | none => (some id, h)
    | some v =>
      (some id, heapUpdate h id { h id with validation := some (ruleSetOptional v true) })

/-!
## Scalar constructors and the record composer (`createObject`)
-/

/-- The options record accepted by the typed constructors
(`IGqlOptionsCommon` / `IGqlOptions`). -/
structure GqlFieldOptions where
  computed : Bool := false
  sortable : Option Bool := none
  description : Option String := none
  validation : Option VRule := none

/-- The spread `{ type: defType, ...options.validation }`: the supplied
rule keeps everything and may even override the type tag. -/
def spreadDefaultType (defType : String) (v : Option VRule) : VRule :=
  match v with
  | some (.rule t o os ps) => .rule (if t = "" then defType else t) o os ps
  | some other => other
  | none => .rule defType none [] none

/-- The spread `{ ...options.validation, extra..., type: defType }`: the
type tag and the extra fields are forced after the user rule.  The extra
constraint fields (`integer`, `empty`, `items`, …) are carried in the
opaque `others` bag. -/
def spreadForceType (v : Option VRule) (defType : String) (extra : List (String × String)) : VRule :=
  match v with
  | some (.rule _ o os ps) => .rule defType o (extra.foldl (fun m p => jsSet m p.1 p.2) os) ps
  | _ => .rule defType none extra none

/-- `GqlString`: a string descriptor (`GraphQLString`, rule type
`string` unless overridden by the supplied rule). -/
def GqlString (options : GqlFieldOptions) : GqlBaseState :=
  mkGqlBaseScalar (some (spreadDefaultType "string" options.validation)) options.computed
    options.description (.flag (options.sortable == some true)) (.scalar "String")

/-- `GqlBoolean`: a boolean descriptor (`GraphQLBoolean`, rule type
forced to `boolean`). -/
def GqlBoolean (options : GqlFieldOptions) : GqlBaseState :=
  mkGqlBaseScalar (some (spreadForceType options.validation "boolean" [])) options.computed
    options.description (.flag (options.sortable == some true)) (.scalar "Boolean")

/-- `GqlInt`: an integer descriptor (`GraphQLInt`, rule type forced to
`number` with `integer: true`). -/
def GqlInt (options : GqlFieldOptions) : GqlBaseState :=
  mkGqlBaseScalar (some (spreadForceType options.validation "number" [("integer", "true")]))
    options.computed options.description (.flag (options.sortable == some true)) (.scalar "Int")

/-- `GqlFloat`: a float descriptor (`GraphQLFloat`, rule type forced to
`number` with `integer: false`). -/
def GqlFloat (options : GqlFieldOptions) : GqlBaseState :=
  mkGqlBaseScalar (some (spreadForceType options.validation "number" [("integer", "false")]))
    options.computed options.description (.flag (options.sortable == some true)) (.scalar "Float")

/-- `GqlArray`: a list descriptor; the element validations become the
`items` constraint (abstracted into the opaque bag), sortability is
inherited from the element, and both the create and the update wire type
wrap the element's create type in a list. -/
def GqlArray (item : GqlBaseState) (options : GqlFieldOptions) : GqlBaseState :=
  mkGqlBaseFull (some (spreadForceType options.validation "array" [("items", "(element validations)")]))
    options.computed options.description item.sortable
    (.list item.outputType) (.list item.inputType) (.list item.inputType)

/-- The moment in the field map construction at which a field getter is
invoked (`'type' | 'input' | 'update'`). -/
inductive FieldMode where
  | type
  | input
  | update
deriving DecidableEq

/-- The `TFieldGetter` hook of `createObject`: it receives the field map,
the mode and the name of the named type under construction and returns
the (possibly extended) field map. -/
abbrev GFieldGetter := List (String × GType) → FieldMode → String → List (String × GType)

/-- Application of an optional field getter to a freshly built field map
(`fieldGetter ? () => fieldGetter(fields, mode, type) : fields`). -/
def applyFieldGetter (getter : Option GFieldGetter) (fields : List (String × GType))
    (mode : FieldMode) (typeName : String) : List (String × GType) :=
  match getter with
  | some g => g fields mode typeName
  | none => fields

/-- The sort paths contributed by one field
(`sortable` truthy: the field name for the boolean form, the dotted
`field.subpath` for each entry of the list form). -/
def sortContrib (field : String) (s : Sortable) : List String :=
  match s with
  | .flag true => [field]
  | .flag false => []
  | .paths ps => ps.map (fun f => field ++ "." ++ f)

/-- The rule list recorded for one field: `gql.validations` is the
one-element list holding the descriptor's rule; for a parameter list
(`isArgs`) a primary rule that is not explicitly optional is copied with
`optional: false`. -/
def fieldRuleList (gql : GqlBaseState) (isArgs : Bool) : VRule :=
  let primary := gql.validation.getD (.flag false)
  let primary :=
    if isArgs && !(ruleOptional primary == some true) then ruleSetOptional primary false
    else primary
  .rules primary []

/-- The accumulated outputs of the field loop of `createObject`. -/
structure ComposeAcc where
  fields : List (String × GType)
  sort : List String
  props : VSchema
  inputFields : List (String × GType)
  updateFields : List (String × GType)

/-- The field loop of `createObject`: for every present field record the
read shape and the sort paths; unless the field is computed also record
the validation rule, the create shape, and the update shape (the update
type is re-wrapped as non-null for parameter lists only). -/
def composeFields (isArgs : Bool) : List (String × Option GqlBaseState) → ComposeAcc
  | [] => ⟨[], [], [], [], []⟩
  | (_, none) :: rest => composeFields isArgs rest
  | (field, some gql) :: rest =>
    let acc := composeFields isArgs rest
    let fields := (field, gql.outputType) :: acc.fields
    let sort := sortContrib field gql.sortable ++ acc.sort
    if gql.computed then
      ⟨fields, sort, acc.props, acc.inputFields, acc.updateFields⟩
    else
      let u := gql.updateType
      ⟨fields, sort, (field, fieldRuleList gql isArgs) :: acc.props,
        (field, gql.inputType) :: acc.inputFields,
        (field, if isNonNullG u || !isArgs then u else .nonNull u) :: acc.updateFields⟩

/-- The object-level options of `createObject`. -/
structure GqlObjectOptions where
  computed : Bool := false
  description : Option String := none
  validation : Option VRule := none

/-- The object-level validation rule built by `createObject`:
`{ ...options.validation, properties, strict: true, type: 'object' }`. -/
def composeValidation (options : GqlObjectOptions) (props : VSchema) : VRule :=
  match options.validation with
  | some (.rule _ o os ps) =>
    let _ := ps
    .rule "object" o (jsSet os "strict" "true") (some props)
  | _ => .rule "object" none [("strict", "true")] (some props)

/-- Shallow embedding of `createObject` from the types module: derive the
read, create and update object types (named `name`, `name ++ Input`,
`name ++ Update`), the strict validation rule, and the collected sort
paths (`sort.length > 0 && sort` is `false` for an empty collection). -/
def createObject (isArgs : Bool) (name : String) (item : List (String × Option GqlBaseState))
    (options : GqlObjectOptions) (noValidation : Bool) (fieldGetter : Option GFieldGetter) :
    GqlBaseState :=
  let acc := composeFields isArgs item
  { computed := options.computed, description := options.description,
    validation :=
      some (if noValidation then .rule "object" none [] none else composeValidation options acc.props),
    sortable := if 0 < acc.sort.length then .paths acc.sort else .flag false,
    graphQLType := .object name (applyFieldGetter fieldGetter acc.fields .type name),
    graphQLInputType :=
      .inputObject (name ++ "Input")
        (applyFieldGetter fieldGetter acc.inputFields .input (name ++ "Input")),
    graphQLUpdateType :=
      .inputObject (name ++ "Update")
        (applyFieldGetter fieldGetter acc.updateFields .update (name ++ "Update")) }

/-- `GqlObject`: the public record constructor (`isArgs = false`). -/
def GqlObject (name : String) (item : List (String × Option GqlBaseState))
    (options : GqlObjectOptions) (noValidation : Bool)
    (fieldGetter : Option GFieldGetter) : GqlBaseState :=
  createObject false name item options noValidation fieldGetter

/-- `GqlArgs`: the parameter-list constructor (`isArgs = true`, empty
name, no validation suppression, no field getter). -/
def GqlArgs (item : List (String × Option GqlBaseState)) (options : GqlObjectOptions) :
    GqlBaseState :=
  createObject true "" item options false none

/-!
## The filter grammar (`src/filterTypes.ts` and `createObjectFilter`)
-/

/-- `createStandardFilter`: the operator set offered for every scalar
kind, each operator descriptor wrapped nullable.  `Exists` is always a
boolean, `In`/`Nin` are lists of the value kind. -/
def createStandardFilter (factory : GqlFieldOptions → GqlBaseState) :
    List (String × Option GqlBaseState) :=
  [("Eq", some (gqlNullableVal (factory { description := some "Exakt identisch" }))),
   ("Exists", some (gqlNullableVal (GqlBoolean { description := some "Ist definiert" }))),
   ("Gt", some (gqlNullableVal (factory { description := some "Größer" }))),
   ("Gte", some (gqlNullableVal (factory { description := some "Nicht kleiner" }))),
   ("In", some (gqlNullableVal (GqlArray (factory { description := some "In Liste" }) {}))),
   ("Lt", some (gqlNullableVal (factory { description := some "Kleiner" }))),
   ("Lte", some (gqlNullableVal (factory { description := some "Nicht größer" }))),
   ("Neq", some (gqlNullableVal (factory { description := some "Nicht identisch" }))),
   ("Nin", some (gqlNullableVal (GqlArray (factory { description := some "Nicht in Liste" }) {})))]

/-- `createStringFilter`: the standard operators plus `RegEx`. -/
def createStringFilter : List (String × Option GqlBaseState) :=
  createStandardFilter GqlString ++
    [("RegEx", some (gqlNullableVal (GqlString { description := some "Mustervergleich" })))]

/-- The shared `BooleanFilter` grammar record. -/
def GqlBooleanFilter : GqlBaseState :=
  gqlNullableVal (GqlObject "BooleanFilter" (createStandardFilter GqlBoolean) {} false none)

/-- The shared `FloatFilter` grammar record. -/
def GqlFloatFilter : GqlBaseState :=
  gqlNullableVal (GqlObject "FloatFilter" (createStandardFilter GqlFloat) {} false none)

/-- The shared `IntFilter` grammar record. -/
def GqlIntFilter : GqlBaseState :=
  gqlNullableVal (GqlObject "IntFilter" (createStandardFilter GqlInt) {} false none)

/-- The shared `StringFilter` grammar record. -/
def GqlStringFilter : GqlBaseState :=
  gqlNullableVal (GqlObject "StringFilter" createStringFilter {} false none)

/-- Stripping a top-level non-null wrapper. -/
def stripNonNull : GType → GType
  | .nonNull t => t
  | t => t

/-- Stripping a top-level list wrapper. -/
def stripList : GType → GType
  | .list t => t
  | t => t

/-- Size bound for `stripNonNull`, used for termination. -/
theorem stripNonNull_sizeOf (t : GType) : sizeOf (stripNonNull t) ≤ sizeOf t := by
  cases t <;> simp [stripNonNull]

/-- Size bound for `stripList`, used for termination. -/
theorem stripList_sizeOf (t : GType) : sizeOf (stripList t) ≤ sizeOf t := by
  cases t <;> simp [stripList]

mutual

/-- Shallow embedding of `createObjectFilter` from `src/filter.ts`: build
the filter layout for the object type named `name` with field map
`fields`, then emit it as a validation-free record named
`outer ++ name ++ "Filter"`.  Only when `outer` is empty does the record
receive a field getter, and that getter extends the field map with the
self-referential `And`/`Or` combinators only for the input mode and only
when the constructed type carries the synthesized input name. -/
def createObjectFilter (name : String) (fields : List (String × GType)) (outer : String) :
    GqlBaseState :=
  let filterName := outer ++ name ++ "Filter"
  GqlObject filterName (filterLayout fields (outer ++ name)) {} true
    (if outer = "" then
      some (fun fs mode tyName =>
        if mode = .input ∧ tyName = filterName ++ "Input" then
          jsSet (jsSet fs "And" (.list (.nonNull (.ref tyName)))) "Or"
            (.list (.nonNull (.ref tyName)))
        else fs)
    else none)
termination_by (sizeOf fields, 3)

/-- The field loop of `createObjectFilter`: normalize each field type
(strip non-null, strip list, strip non-null again), then dispatch on the
kind via `filterEntry`. -/
def filterLayout (fields : List (String × GType)) (outerName : String) :
    List (String × Option GqlBaseState) :=
  match fields with
  | [] => []
  | (fname, ftype) :: rest =>
    have _hsz : sizeOf (stripNonNull (stripList (stripNonNull ftype))) ≤ sizeOf ftype :=
      le_trans (stripNonNull_sizeOf _) (le_trans (stripList_sizeOf _) (stripNonNull_sizeOf _))
    filterEntry fname (stripNonNull (stripList (stripNonNull ftype))) outerName ++
      filterLayout rest outerName
termination_by (sizeOf fields, 2)
decreasing_by
  all_goals simp_wf
  · apply Prod.Lex.left
    omega
  · apply Prod.Lex.left
    omega

/-- The kind dispatch of the `createObjectFilter` field loop: the four
scalar kinds use the shared filter records, object kinds recurse with the
extended path, enum kinds wrap the standard operator set around the enum
itself, and any other kind contributes no entry. -/
def filterEntry (fname : String) (fieldType : GType) (outerName : String) :
    List (String × Option GqlBaseState) :=
  match fieldType with
  | .scalar sn =>
    if sn = "String" then [(fname, some GqlStringFilter)]
    else if sn = "Int" then [(fname, some GqlIntFilter)]
    else if sn = "Float" then [(fname, some GqlFloatFilter)]
    else if sn = "Boolean" then [(fname, some GqlBooleanFilter)]
    else []
  | .object n2 f2 => [(fname, some (gqlNullableVal (createObjectFilter n2 f2 outerName)))]
  | .enum n2 =>
    [(fname, some (gqlNullableVal (GqlObject (n2 ++ "Filter")
      (createStandardFilter (fun o =>
        mkGqlBaseScalar o.validation o.computed o.description (.flag false) (.enum n2)))
      {} false none)))]
  | _ => []
termination_by (sizeOf fieldType, 4)

end

/-!
## Specification-side definitions and analysis helpers

The following definitions are written from the words of the
specification (not from the source); the theorems below compare the
embedded source functions against them.
-/

/-- The operator names recognized by the `switch` of `toMongoFilter`. -/
def opNames : List String :=
  ["Exists", "Eq", "Neq", "Lt", "Lte", "Gt", "Gte", "In", "Nin", "RegEx"]

/-- Modelled from the spec: the fixed operator translation table —
`Exists` to an existence test against `value !== false`, `Eq`/`Neq` to
equality and inequality, `Lt`/`Lte`/`Gt`/`Gte` to the range operators,
`In`/`Nin` to set membership (an absent list becoming the empty list),
and `RegEx` to a case-insensitive pattern match. -/
def specOpEntries (op : String) (v : GqlVal) : List (String × GqlVal) :=
  if op = "Exists" then [("$exists", .bool (existsFlag v))]
  else if op = "Eq" then [("$eq", v)]
  else if op = "Neq" then [("$ne", v)]
  else if op = "Lt" then [("$lt", v)]
  else if op = "Lte" then [("$lte", v)]
  else if op = "Gt" then [("$gt", v)]
  else if op = "Gte" then [("$gte", v)]
  else if op = "In" then [("$in", if falsy v then .arr [] else v)]
  else if op = "Nin" then [("$nin", if falsy v then .arr [] else v)]
  else if op = "RegEx" then [("$regex", v), ("$options", .str "i")]
  else []

/-- The conjunctive accumulation of several operator keys of one field
into the field's single predicate object: every translated entry is
written into the same document. -/
def opFoldSpec (pairs : List (String × GqlVal)) : MDoc :=
  pairs.foldl (fun ff p => (specOpEntries p.1 p.2).foldl (fun m q => jsSet m q.1 q.2) ff) []

/-- Modelled from the spec: the sort paths of a field layout — the field
name alone for a field whose `sortable` is the boolean true, and the
dotted `field.subpath` for each subpath when `sortable` is a list. -/
def sortPathsSpec (item : List (String × Option GqlBaseState)) : List String :=
  item.flatMap fun p =>
    match p.2 with
    | none => []
    | some gql =>
      match gql.sortable with
      | .flag true => [p.1]
      | .flag false => []
      | .paths ps => ps.map (fun f => p.1 ++ "." ++ f)

/-- Key membership in an ordered object. -/
def hasKey {α : Type} (m : List (String × α)) (k : String) : Bool :=
  m.any (fun p => p.1 = k)

mutual

/-- No object or input-object node of the type tree carries a field named
`And` or `Or`. -/
def andOrFreeG : GType → Bool
  | .object _ fs => !hasKey fs "And" && !hasKey fs "Or" && andOrFreeFields fs
  | .inputObject _ fs => !hasKey fs "And" && !hasKey fs "Or" && andOrFreeFields fs
  | .list t => andOrFreeG t
  | .nonNull t => andOrFreeG t
  | _ => true

/-- `andOrFreeG` over the values of a field map. -/
def andOrFreeFields : List (String × GType) → Bool
  | [] => true
  | (_, t) :: rest => andOrFreeG t && andOrFreeFields rest

end

/-- A descriptor all three wire types of which are free of `And`/`Or`
fields. -/
def descrAndOrFree (d : GqlBaseState) : Bool :=
  andOrFreeG d.graphQLType && andOrFreeG d.graphQLInputType && andOrFreeG d.graphQLUpdateType

/-- A layout all present entries of which are `And`/`Or`-free
descriptors. -/
def layoutEntriesFree : List (String × Option GqlBaseState) → Bool
  | [] => true
  | (_, none) :: rest => layoutEntriesFree rest
  | (_, some d) :: rest => descrAndOrFree d && layoutEntriesFree rest

/-- The field map of a named object or input-object type. -/
def gfieldsOf : GType → List (String × GType)
  | .object _ fs => fs
  | .inputObject _ fs => fs
  | _ => []

/-- `graphql-js` forbids a non-null wrapper directly around another
non-null wrapper; a stored wire type satisfies this at its top. -/
def noDoubleNonNull : GType → Bool
  | .nonNull (.nonNull _) => false
  | _ => true

/-! ## Theorems -/

theorem jsSet_nil {α : Type} (k : String) (v : α) : jsSet [] k v = [(k, v)] := by
  simp [jsSet]

theorem mongoMap_length {xs : List GqlVal} {scope : String} {subs : List MDoc}
    (h : mongoMap xs scope = some subs) : subs.length = xs.length := by
  induction xs generalizing subs with
  | nil =>
    simp [mongoMap] at h
    simp [← h]
  | cons x rest ih =>
    rw [mongoMap] at h
    cases h1 : toMongoFilter x scope [] with
    | none => rw [h1] at h; simp at h
    | some d =>
      rw [h1] at h
      cases h2 : mongoMap rest scope with
      | none => rw [h2] at h; simp at h
      | some ds =>
        rw [h2] at h
        simp at h
        simp [← h, ih h2]

/-- Claim C10: a filter field whose `In` (resp. `Nin`) operator carries a
null or undefined value still contributes a constraint: it compiles to an
empty membership list under the field path rather than being dropped the
way an empty sub-predicate is. -/
theorem C10_in_nin_null_empty_list (scope field : String) (h1 : field ≠ "And")
    (h2 : field ≠ "Or") :
    toMongoFilter (.obj [(field, .obj [("In", .null)])]) scope []
      = some [(mongoPath scope field, .obj [("$in", .arr [])])] ∧
    toMongoFilter (.obj [(field, .obj [("Nin", .null)])]) scope []
      = some [(mongoPath scope field, .obj [("$nin", .arr [])])] := by
  constructor <;> simp [toMongoFilter, mongoFields, mongoOps, opPairs, jsSet, falsy, h1, h2]

/-- Claim C2: a nested object filter compiles to a flat predicate keyed
on the dotted concatenation of the enclosing scope, the field name and
the nested field name (an empty scope contributing no leading dot), not
to a nested predicate object. -/
theorem C2_nested_filter_path_flattening (scope field sub : String) (v : GqlVal)
    (h1 : field ≠ "And") (h2 : field ≠ "Or") (h3 : sub ∉ opNames)
    (h4 : sub ≠ "And") (h5 : sub ≠ "Or") :
    toMongoFilter (.obj [(field, .obj [(sub, .obj [("Eq", v)])])]) scope []
      = some [(mongoPath (mongoPath scope field) sub, .obj [("$eq", v)])] := by
  simp [opNames] at h3
  simp [toMongoFilter, mongoFields, mongoOps, opPairs, jsSet, h1, h2, h3, h4, h5]

/-- Claim C3 (amended): an `And` (resp. `Or`) key compiles each list
element against the same scope as the enclosing expression, and the
`$and` (resp. `$or`) group appears in the output exactly when the list is
non-empty — each compiled element is counted, even one whose compiled
sub-predicate is empty; in particular an empty `And` list leaves no
`$and` key and does not constrain the result. -/
theorem C3_empty_and_or_groups (scope : String) (xs : List GqlVal) (subs : List MDoc)
    (h : mongoMap xs scope = some subs) :
    toMongoFilter (.obj [("And", .arr xs)]) scope []
      = some (if xs.isEmpty then [] else [("$and", .arr (subs.map .obj))]) ∧
    toMongoFilter (.obj [("Or", .arr xs)]) scope []
      = some (if xs.isEmpty then [] else [("$or", .arr (subs.map .obj))]) := by
  have hlen := mongoMap_length h
  by_cases hxs : xs = []
  · subst hxs
    have : subs = [] := List.eq_nil_of_length_eq_zero hlen
    subst this
    constructor <;> simp [toMongoFilter, mongoFields, andOrList, mongoMap]
  · have hpos : 0 < subs.length := by
      rw [hlen]
      exact List.length_pos.mpr hxs
    constructor <;>
      simp [toMongoFilter, mongoFields, andOrList, h, hpos, jsSet, List.isEmpty_iff, hxs]

theorem foldl_jsSet_length (l : List (String × GqlVal)) (acc : MDoc) :
    acc.length ≤ (l.foldl (fun m q => jsSet m q.1 q.2) acc).length := by
  induction l generalizing acc with
  | nil => simp
  | cons e rest ih =>
    calc acc.length ≤ (jsSet acc e.1 e.2).length := by
          simp [jsSet]; split <;> simp
      _ ≤ _ := by simpa using ih (jsSet acc e.1 e.2)

theorem opFold_mono (pairs : List (String × GqlVal)) (acc : MDoc) :
    acc.length ≤ (pairs.foldl (fun m p =>
      (specOpEntries p.1 p.2).foldl (fun m2 q => jsSet m2 q.1 q.2) m) acc).length := by
  induction pairs generalizing acc with
  | nil => simp
  | cons p rest ih =>
    calc acc.length ≤ ((specOpEntries p.1 p.2).foldl (fun m2 q => jsSet m2 q.1 q.2) acc).length :=
          foldl_jsSet_length _ _
      _ ≤ _ := by simpa using ih _

theorem opFoldSpec_pos (pairs : List (String × GqlVal)) (hne : pairs ≠ [])
    (hall : ∀ p ∈ pairs, p.1 ∈ opNames) : 0 < (opFoldSpec pairs).length := by
  match pairs with
  | [] => exact absurd rfl hne
  | p :: rest =>
    have hop := hall p (by simp)
    have hstep : 0 < ((specOpEntries p.1 p.2).foldl (fun m2 q => jsSet m2 q.1 q.2) ([] : MDoc)).length := by
      simp [opNames] at hop
      rcases hop with h | h | h | h | h | h | h | h | h | h <;>
        simp [specOpEntries, h, jsSet]
    calc 0 < ((specOpEntries p.1 p.2).foldl (fun m2 q => jsSet m2 q.1 q.2) ([] : MDoc)).length := hstep
      _ ≤ _ := by simpa [opFoldSpec] using opFold_mono rest _

theorem mongoOps_table : ∀ (pairs : List (String × GqlVal)) (ops : GqlVal) (fullName : String)
    (ff filter : MDoc), (∀ p ∈ pairs, p.1 ∈ opNames) →
    mongoOps ops pairs fullName ff filter
      = some (pairs.foldl (fun m p =>
          (specOpEntries p.1 p.2).foldl (fun m2 q => jsSet m2 q.1 q.2) m) ff, filter) := by
  intro pairs
  induction pairs with
  | nil => intro ops fullName ff filter _; simp [mongoOps]
  | cons p rest ih =>
    intro ops fullName ff filter hall
    obtain ⟨op, v⟩ := p
    have hop := hall (op, v) (by simp)
    have hrest : ∀ q ∈ rest, q.1 ∈ opNames := fun q hq => hall q (by simp [hq])
    simp [opNames] at hop
    rcases hop with h | h | h | h | h | h | h | h | h | h <;> subst h <;>
      simp [mongoOps, specOpEntries, ih _ _ _ _ hrest]

/-- Claim C4: every recognized operator key of a field is translated via
the fixed table `specOpEntries`, and when several operator keys appear
under one field all of them are accumulated into that field's single
predicate object under one path key — conjunctive semantics, never
alternatives. -/
theorem C4_operator_table_conjunctive (scope field : String) (pairs : List (String × GqlVal))
    (h1 : field ≠ "And") (h2 : field ≠ "Or") (hall : ∀ p ∈ pairs, p.1 ∈ opNames)
    (hne : pairs ≠ []) :
    toMongoFilter (.obj [(field, .obj pairs)]) scope []
      = some [(mongoPath scope field, .obj (opFoldSpec pairs))] := by
  have hpos := opFoldSpec_pos pairs hne hall
  have hnil : opFoldSpec pairs ≠ [] := by
    intro hcontra
    rw [hcontra] at hpos
    simp at hpos
  simp only [opFoldSpec] at hnil
  simp [toMongoFilter, mongoFields, h1, h2, opPairs,
    mongoOps_table pairs _ _ _ _ hall, opFoldSpec, hpos, hnil, jsSet_nil]

example : opFoldSpec [("Gte", .num 5), ("Lte", .num 10)] = [("$gte", .num 5), ("$lte", .num 10)] := by
  simp [opFoldSpec, specOpEntries, jsSet]

theorem vruleWF_rules_eq (head : VRule) (tail : List VRule) :
    vruleWF (.rules head tail) = vruleWF head := by
  rw [vruleWF.eq_def]

theorem vruleWF_rule_eq (ty : String) (opt : Option Bool) (others : List (String × String))
    (props : Option (List (String × VRule))) :
    vruleWF (.rule ty opt others props)
      = (decide (ty ≠ "") &&
          (if ty = "object" then
            match props with
            | none => true
            | some ps => vrulePropsWF ps
          else true)) := by
  rw [vruleWF.eq_def]

theorem vrulePropsWF_cons (k : String) (v : VRule) (rest : List (String × VRule)) :
    vrulePropsWF ((k, v) :: rest) = (vruleWF v && vrulePropsWF rest) := by
  rw [vrulePropsWF.eq_def]

theorem vruleWF_flag_eq (b : Bool) : vruleWF (.flag b) = true := by
  rw [vruleWF.eq_def]

theorem vrulePropsWF_nil : vrulePropsWF [] = true := by
  rw [vrulePropsWF.eq_def]

theorem convertRule_flag_eq (b : Bool) : convertRuleForUpdate (.flag b) = .flag b := by
  rw [convertRuleForUpdate.eq_def]

theorem convertRule_rules_eq (head : VRule) (tail : List VRule) :
    convertRuleForUpdate (.rules head tail) = .rules (convertRuleForUpdate head) tail := by
  rw [convertRuleForUpdate.eq_def]

theorem convertRule_rule_eq (ty : String) (opt : Option Bool) (others : List (String × String))
    (props : Option (List (String × VRule))) :
    convertRuleForUpdate (.rule ty opt others props)
      = if ty = "" then .rule ty opt others props
        else
          let opt1 := if opt = some false then opt else some true
          if ty ≠ "object" then .rule ty opt1 others props
          else
            match props with
            | none => .rule ty opt1 others none
            | some ps => .rule ty opt1 others (some (convertPropsForUpdate ps)) := by
  rw [convertRuleForUpdate.eq_def]

theorem convertProps_nil_eq : convertPropsForUpdate [] = [] := by
  rw [convertPropsForUpdate.eq_def]

theorem convertProps_cons_eq (k : String) (v : VRule) (rest : List (String × VRule)) :
    convertPropsForUpdate ((k, v) :: rest)
      = (k, convertRuleForUpdate v) :: convertPropsForUpdate rest := by
  rw [convertPropsForUpdate.eq_def]

theorem optForcedOK_flag_eq (b : Bool) (out : VRule) : optForcedOK (.flag b) out = true := by
  rw [optForcedOK.eq_def]

theorem optForcedOK_rules_eq (head : VRule) (tail : List VRule) (head2 : VRule)
    (tail2 : List VRule) :
    optForcedOK (.rules head tail) (.rules head2 tail2) = optForcedOK head head2 := by
  rw [optForcedOK.eq_def]

theorem optForcedOK_rule_eq (ty : String) (opt : Option Bool) (others : List (String × String))
    (props : Option (List (String × VRule))) (ty2 : String) (opt2 : Option Bool)
    (others2 : List (String × String)) (props2 : Option (List (String × VRule))) :
    optForcedOK (.rule ty opt others props) (.rule ty2 opt2 others2 props2)
      = ((opt2 == (if opt = some false then some false else some true)) &&
          (if ty = "object" then
            match props, props2 with
            | none, _ => true
            | some ps, some ps2 => optForcedProps ps ps2
            | some _, none => false
          else true)) := by
  rw [optForcedOK.eq_def]

theorem optForcedProps_nil_eq : optForcedProps [] [] = true := by
  rw [optForcedProps.eq_def]

theorem optForcedProps_cons_eq (k : String) (v : VRule) (rest : List (String × VRule))
    (k2 : String) (v2 : VRule) (rest2 : List (String × VRule)) :
    optForcedProps ((k, v) :: rest) ((k2, v2) :: rest2)
      = ((k == k2) && optForcedOK v v2 && optForcedProps rest rest2) := by
  rw [optForcedProps.eq_def]

theorem optForced_convert_aux :
    ∀ (n : Nat) (v : VRule), sizeOf v ≤ n → vruleWF v = true →
      optForcedOK v (convertRuleForUpdate v) = true := by
  intro n
  induction n using Nat.strong_induction_on with
  | _ n ih =>
    intro v hsz hw
    cases v with
    | flag b => rw [optForcedOK_flag_eq]
    | rules head tail =>
      rw [vruleWF_rules_eq] at hw
      have hsh : sizeOf head < n := by
        have : sizeOf head < sizeOf (VRule.rules head tail) := by
          simp
          omega
        omega
      have hrec := ih (sizeOf head) hsh head le_rfl hw
      rw [convertRule_rules_eq, optForcedOK_rules_eq]
      exact hrec
    | rule ty opt others props =>
      have hstep : ∀ ps : List (String × VRule), sizeOf ps ≤ n → vrulePropsWF ps = true →
          optForcedProps ps (convertPropsForUpdate ps) = true := by
        intro ps
        induction ps with
        | nil => intro _ _; rw [convertProps_nil_eq, optForcedProps_nil_eq]
        | cons kv rest ihps =>
          intro hsz2 hw2
          obtain ⟨k, v2⟩ := kv
          rw [vrulePropsWF_cons, Bool.and_eq_true] at hw2
          have hsv : sizeOf v2 < n := by
            have : sizeOf v2 < sizeOf ((k, v2) :: rest) := by
              simp
              omega
            omega
          have hsr : sizeOf rest ≤ n := by
            have : sizeOf rest < sizeOf ((k, v2) :: rest) := by
              simp
            omega
          have h1 := ih (sizeOf v2) hsv v2 le_rfl hw2.1
          have h2 := ihps hsr hw2.2
          rw [convertProps_cons_eq, optForcedProps_cons_eq, h1, h2]
          simp
      rw [vruleWF_rule_eq, Bool.and_eq_true] at hw
      obtain ⟨hty, hobj⟩ := hw
      rw [decide_eq_true_eq] at hty
      rw [convertRule_rule_eq]
      by_cases ho : ty = "object"
      · subst ho
        cases props with
        | none =>
          simp only [if_neg hty, if_neg (by simp : ¬("object" ≠ "object"))]
          rw [optForcedOK_rule_eq]
          by_cases hf : opt = some false <;> simp [hf]
        | some ps =>
          have hps : vrulePropsWF ps = true := by
            rw [if_pos rfl] at hobj
            exact hobj
          have hsp : sizeOf ps ≤ n := by
            have hlt : sizeOf ps < sizeOf (VRule.rule "object" opt others (some ps)) := by
              simp
              omega
            omega
          simp only [if_neg hty, if_neg (by simp : ¬("object" ≠ "object"))]
          rw [optForcedOK_rule_eq]
          have hstepped := hstep ps hsp hps
          by_cases hf : opt = some false <;> simp [hf, hstepped]
      · cases props with
        | none =>
          simp only [if_neg hty, if_pos ho]
          rw [optForcedOK_rule_eq]
          by_cases hf : opt = some false <;> simp [hf, ho]
        | some ps =>
          simp only [if_neg hty, if_pos ho]
          rw [optForcedOK_rule_eq]
          by_cases hf : opt = some false <;> simp [hf, ho]

theorem optForced_convert (v : VRule) (hw : vruleWF v = true) :
    optForcedOK v (convertRuleForUpdate v) = true :=
  optForced_convert_aux (sizeOf v) v le_rfl hw

theorem optUpd_idem (opt : Option Bool) :
    (if (if opt = some false then opt else some true) = some false then
      (if opt = some false then opt else some true)
    else some true) = (if opt = some false then opt else some true) := by
  by_cases hf : opt = some false <;> simp [hf]

theorem convertRule_idem_aux :
    ∀ (n : Nat) (v : VRule), sizeOf v ≤ n →
      convertRuleForUpdate (convertRuleForUpdate v) = convertRuleForUpdate v := by
  intro n
  induction n using Nat.strong_induction_on with
  | _ n ih =>
    intro v hsz
    cases v with
    | flag b => rw [convertRule_flag_eq, convertRule_flag_eq]
    | rules head tail =>
      have hsh : sizeOf head < n := by
        have : sizeOf head < sizeOf (VRule.rules head tail) := by
          simp
          omega
        omega
      rw [convertRule_rules_eq, convertRule_rules_eq, ih (sizeOf head) hsh head le_rfl]
    | rule ty opt others props =>
      have hstep : ∀ ps : List (String × VRule), sizeOf ps ≤ n →
          convertPropsForUpdate (convertPropsForUpdate ps) = convertPropsForUpdate ps := by
        intro ps
        induction ps with
        | nil => intro _; simp [convertProps_nil_eq]
        | cons kv rest ihps =>
          intro hsz2
          obtain ⟨k, v2⟩ := kv
          have hsv : sizeOf v2 < n := by
            have : sizeOf v2 < sizeOf ((k, v2) :: rest) := by
              simp
              omega
            omega
          have hsr : sizeOf rest ≤ n := by
            have : sizeOf rest < sizeOf ((k, v2) :: rest) := by
              simp
            omega
          simp only [convertProps_cons_eq]
          rw [ih (sizeOf v2) hsv v2 le_rfl, ihps hsr]
      by_cases hty : ty = ""
      · have h1 : convertRuleForUpdate (.rule ty opt others props) = .rule ty opt others props := by
          rw [convertRule_rule_eq, if_pos hty]
        rw [h1]
        exact h1
      · by_cases ho : ty = "object"
        · subst ho
          have hne : ¬(("object" : String) ≠ "object") := by simp
          cases props with
          | none =>
            rw [convertRule_rule_eq, if_neg hty, if_neg hne]
            rw [convertRule_rule_eq, if_neg hty, if_neg hne]
            rw [optUpd_idem]
          | some ps =>
            have hsp : sizeOf ps ≤ n := by
              have hlt : sizeOf ps < sizeOf (VRule.rule "object" opt others (some ps)) := by
                simp
                omega
              omega
            rw [convertRule_rule_eq, if_neg hty, if_neg hne]
            rw [convertRule_rule_eq, if_neg hty, if_neg hne]
            rw [optUpd_idem]
            dsimp only
            rw [hstep ps hsp]
        · have ho2 : ty ≠ "object" := ho
          rw [convertRule_rule_eq, if_neg hty, if_pos ho2]
          rw [convertRule_rule_eq, if_neg hty, if_pos ho2]
          rw [optUpd_idem]

theorem convertRule_idem (v : VRule) :
    convertRuleForUpdate (convertRuleForUpdate v) = convertRuleForUpdate v :=
  convertRule_idem_aux (sizeOf v) v le_rfl

theorem topOptional_convert_false :
    ∀ (n : Nat) (v : VRule), sizeOf v ≤ n → topOptional v = some false →
      topOptional (convertRuleForUpdate v) = some false := by
  intro n
  induction n using Nat.strong_induction_on with
  | _ n ih =>
    intro v hsz hf
    cases v with
    | flag b => simp [topOptional] at hf
    | rules head tail =>
      have hsh : sizeOf head < n := by
        have : sizeOf head < sizeOf (VRule.rules head tail) := by
          simp
          omega
        omega
      have hh : topOptional head = some false := by simpa [topOptional] using hf
      rw [convertRule_rules_eq]
      simpa [topOptional] using ih (sizeOf head) hsh head le_rfl hh
    | rule ty opt others props =>
      have hopt : opt = some false := by simpa [topOptional] using hf
      subst hopt
      by_cases hty : ty = ""
      · rw [convertRule_rule_eq, if_pos hty]
        exact hf
      · by_cases ho : ty = "object"
        · subst ho
          have hne : ¬(("object" : String) ≠ "object") := by simp
          cases props with
          | none =>
            rw [convertRule_rule_eq, if_neg hty, if_neg hne]
            simp [topOptional]
          | some ps =>
            rw [convertRule_rule_eq, if_neg hty, if_neg hne]
            simp [topOptional]
        · rw [convertRule_rule_eq, if_neg hty, if_pos (ho : ty ≠ "object")]
          simp [topOptional]

/-- Claim C5: for every validation schema handed to `convertForUpdate`
(well-formed: every reachable rule carries a type tag), the returned
schema keeps every key and satisfies, entry by entry, the forced-optional
relation: every rule reachable by recursive descent has `optional = true`
in the output, except that an explicit `optional = false` of the input is
preserved unchanged. -/
theorem C5_convertForUpdate_optional_forced (schema : VSchema)
    (hw : ∀ p ∈ schema, vruleWF p.2 = true) :
    List.Forall₂ (fun p q => p.1 = q.1 ∧ optForcedOK p.2 q.2 = true)
      schema (convertForUpdate schema) := by
  induction schema with
  | nil => simp [convertForUpdate]
  | cons p rest ih =>
    simp only [convertForUpdate, List.map_cons]
    constructor
    · exact ⟨rfl, optForced_convert p.2 (hw p (by simp))⟩
    · have := ih (fun q hq => hw q (by simp [hq]))
      simpa [convertForUpdate] using this

/-- Witness for C5 at a concrete schema with a string field, an
explicitly non-optional field, a nested object rule, and a `$$strict`
marker. -/
theorem C5_convertForUpdate_optional_forced_witness :
    (∀ p ∈ ([("name", VRule.rules (.rule "string" none [] none) []),
        ("locked", VRule.rule "boolean" (some false) [] none),
        ("address", VRule.rule "object" none []
          (some [("city", VRule.rule "string" none [] none)])),
        ("$$strict", VRule.flag true)] : VSchema), vruleWF p.2 = true) ∧
    List.Forall₂ (fun p q => p.1 = q.1 ∧ optForcedOK p.2 q.2 = true)
      ([("name", VRule.rules (.rule "string" none [] none) []),
        ("locked", VRule.rule "boolean" (some false) [] none),
        ("address", VRule.rule "object" none []
          (some [("city", VRule.rule "string" none [] none)])),
        ("$$strict", VRule.flag true)] : VSchema)
      (convertForUpdate
        [("name", VRule.rules (.rule "string" none [] none) []),
         ("locked", VRule.rule "boolean" (some false) [] none),
         ("address", VRule.rule "object" none []
           (some [("city", VRule.rule "string" none [] none)])),
         ("$$strict", VRule.flag true)]) := by
  have hw : ∀ p ∈ ([("name", VRule.rules (.rule "string" none [] none) []),
      ("locked", VRule.rule "boolean" (some false) [] none),
      ("address", VRule.rule "object" none []
        (some [("city", VRule.rule "string" none [] none)])),
      ("$$strict", VRule.flag true)] : VSchema), vruleWF p.2 = true := by
    intro p hp
    simp only [List.mem_cons, List.not_mem_nil, or_false] at hp
    rcases hp with h | h | h | h <;> subst h <;>
      simp [vruleWF_rule_eq, vruleWF_rules_eq, vruleWF_flag_eq, vrulePropsWF_cons,
        vrulePropsWF_nil]
  exact ⟨hw, C5_convertForUpdate_optional_forced _ hw⟩

/-- Claim C6: `convertForUpdate` is idempotent — applying it twice yields
the same schema as applying it once — and an explicit `optional = false`
marker of a schema entry survives both applications unchanged. -/
theorem C6_convertForUpdate_idempotent (schema : VSchema) (p : String × VRule)
    (_hp : p ∈ schema) (hf : topOptional p.2 = some false) :
    convertForUpdate (convertForUpdate schema) = convertForUpdate schema ∧
    topOptional (convertRuleForUpdate (convertRuleForUpdate p.2)) = some false := by
  constructor
  · simp only [convertForUpdate, List.map_map]
    apply List.map_congr_left
    intro a _
    simp [Function.comp, convertRule_idem]
  · rw [convertRule_idem]
    exact topOptional_convert_false (sizeOf p.2) p.2 le_rfl hf

/-- Witness for C6 at a concrete schema holding an explicit
`optional = false` marker. -/
theorem C6_convertForUpdate_idempotent_witness :
    ("locked", VRule.rule "boolean" (some false) [] none)
        ∈ ([("name", VRule.rule "string" none [] none),
            ("locked", VRule.rule "boolean" (some false) [] none)] : VSchema) ∧
    topOptional (VRule.rule "boolean" (some false) [] none) = some false ∧
    (convertForUpdate (convertForUpdate
        [("name", VRule.rule "string" none [] none),
         ("locked", VRule.rule "boolean" (some false) [] none)])
      = convertForUpdate
        [("name", VRule.rule "string" none [] none),
         ("locked", VRule.rule "boolean" (some false) [] none)] ∧
    topOptional (convertRuleForUpdate (convertRuleForUpdate
        (VRule.rule "boolean" (some false) [] none))) = some false) :=
  ⟨by simp, by simp [topOptional],
    C6_convertForUpdate_idempotent _ ("locked", VRule.rule "boolean" (some false) [] none)
      (by simp) (by simp [topOptional])⟩

/-- Witness for C10 at the field `x` in the empty scope. -/
theorem C10_in_nin_null_empty_list_witness :
    toMongoFilter (.obj [("x", .obj [("In", .null)])]) "" []
      = some [("x", .obj [("$in", .arr [])])] ∧
    toMongoFilter (.obj [("x", .obj [("Nin", .null)])]) "" []
      = some [("x", .obj [("$nin", .arr [])])] := by
  have h := C10_in_nin_null_empty_list "" "x" (by decide) (by decide)
  simpa [mongoPath] using h

/-- Witness for C2: the specification example — filtering
`address.city` equal to Berlin. -/
theorem C2_nested_filter_path_flattening_witness :
    toMongoFilter (.obj [("address", .obj [("city", .obj [("Eq", .str "Berlin")])])]) "" []
      = some [("address.city", .obj [("$eq", .str "Berlin")])] := by
  have h := C2_nested_filter_path_flattening "" "address" "city" (.str "Berlin")
    (by decide) (by decide) (by decide) (by decide) (by decide)
  simpa [mongoPath] using h

/-- Counterexample to C3 as stated: the filter value whose `And` list
holds exactly one empty object produces only the trivial empty
sub-predicate, yet the output does carry a `$and` key — the source tests
`subs.length > 0` on the compiled list, not the existence of a
non-trivial sub-predicate. -/
theorem C3_counterexample :
    mongoMap [GqlVal.obj []] "" = some [[]] ∧
    toMongoFilter (.obj [("And", .arr [.obj []])]) "" []
      = some [("$and", .arr [.obj []])] := by
  constructor
  · simp [mongoMap, toMongoFilter, mongoFields]
  · simp [toMongoFilter, mongoFields, andOrList, mongoMap, jsSet]

/-- Witness for the amended C3: an empty `And` or `Or` list leaves no
logical key and no constraint. -/
theorem C3_empty_and_or_groups_witness :
    toMongoFilter (.obj [("And", .arr [])]) "" [] = some [] ∧
    toMongoFilter (.obj [("Or", .arr [])]) "" [] = some [] := by
  have h := C3_empty_and_or_groups "" [] [] (by simp [mongoMap])
  simpa using h

/-- Witness for C4: the specification example — a range `Gte 5, Lte 10`
on one field lands in one predicate object requiring both bounds. -/
theorem C4_operator_table_conjunctive_witness :
    toMongoFilter (.obj [("age", .obj [("Gte", .num 5), ("Lte", .num 10)])]) "" []
      = some [("age", .obj [("$gte", .num 5), ("$lte", .num 10)])] := by
  have h := C4_operator_table_conjunctive "" "age" [("Gte", .num 5), ("Lte", .num 10)]
    (by decide) (by decide) (by decide) (by simp)
  simpa [mongoPath, opFoldSpec, specOpEntries, jsSet] using h

theorem updateType_not_nonNull (d : GqlBaseState)
    (h : noDoubleNonNull d.graphQLUpdateType = true) : isNonNullG d.updateType = false := by
  cases hu : d.graphQLUpdateType with
  | nonNull t =>
    rw [hu] at h
    cases t <;> simp_all [noDoubleNonNull, isNonNullG, GqlBaseState.updateType, hu]
  | _ => simp [GqlBaseState.updateType, hu, isNonNullG]

theorem composeFields_updateFields_nullable
    (item : List (String × Option GqlBaseState))
    (hw : ∀ p ∈ item, ∀ g, p.2 = some g → noDoubleNonNull g.graphQLUpdateType = true) :
    ∀ q ∈ (composeFields false item).updateFields, isNonNullG q.2 = false := by
  induction item with
  | nil => simp [composeFields]
  | cons p rest ih =>
    obtain ⟨field, e⟩ := p
    have hrest := ih (fun q hq g hg => hw q (by simp [hq]) g hg)
    cases e with
    | none =>
      simpa [composeFields] using hrest
    | some gql =>
      have hg : noDoubleNonNull gql.graphQLUpdateType = true :=
        hw (field, some gql) (by simp) gql rfl
      intro q hq
      by_cases hc : gql.computed
      · rw [composeFields] at hq
        simp only [hc, if_true] at hq
        exact hrest q hq
      · rw [composeFields] at hq
        simp only [hc, if_false, Bool.false_eq_true] at hq
        simp only [List.mem_cons] at hq
        rcases hq with hq | hq
        · subst hq
          simp only [Bool.not_false, Bool.or_true, if_true]
          exact updateType_not_nonNull gql hg
        · exact hrest q hq

/-- Claim C1: the `updateType` accessor never reports a non-null wrapper
(whatever the stored create and update types are, within the `graphql-js`
invariant forbidding doubled non-null), and consequently every field of
the update shape derived for a record (`isArgs = false`, an update-mode
getter that leaves the field map unchanged, as the only getter in the
repository does) is nullable. -/
theorem C1_updateType_always_nullable :
    (∀ d : GqlBaseState, noDoubleNonNull d.graphQLUpdateType = true →
      isNonNullG d.updateType = false) ∧
    (∀ (name : String) (item : List (String × Option GqlBaseState))
        (options : GqlObjectOptions) (noValidation : Bool) (getter : Option GFieldGetter),
      (∀ p ∈ item, ∀ g, p.2 = some g → noDoubleNonNull g.graphQLUpdateType = true) →
      (∀ fs n, applyFieldGetter getter fs FieldMode.update n = fs) →
      ∀ q ∈ gfieldsOf (createObject false name item options noValidation getter).graphQLUpdateType,
        isNonNullG q.2 = false) := by
  constructor
  · exact updateType_not_nonNull
  · intro name item options noValidation getter hw hg q hq
    simp only [createObject, gfieldsOf, hg] at hq
    exact composeFields_updateFields_nullable item hw q hq

/-- Witness for C1: a record with a non-null create field whose update
shape is nonetheless nullable. -/
theorem C1_updateType_always_nullable_witness :
    (noDoubleNonNull (GqlString {}).graphQLUpdateType = true ∧
      isNonNullG (GqlString {}).updateType = false) ∧
    ((∀ p ∈ [("name", some (GqlString {}))], ∀ g : GqlBaseState, p.2 = some g →
        noDoubleNonNull g.graphQLUpdateType = true) ∧
      (∀ fs n, applyFieldGetter (none : Option GFieldGetter) fs FieldMode.update n = fs) ∧
      ∀ q ∈ gfieldsOf (createObject false "Person" [("name", some (GqlString {}))] {} false
          none).graphQLUpdateType,
        isNonNullG q.2 = false) := by
  refine ⟨⟨by decide, C1_updateType_always_nullable.1 (GqlString {}) (by decide)⟩,
    ?_, fun fs n => rfl, ?_⟩
  · intro p hp g hg
    simp only [List.mem_cons, List.not_mem_nil, or_false] at hp
    subst hp
    simp only [Option.some.injEq] at hg
    subst hg
    decide
  · apply C1_updateType_always_nullable.2
    · intro p hp g hg
      simp only [List.mem_cons, List.not_mem_nil, or_false] at hp
      subst hp
      simp only [Option.some.injEq] at hg
      subst hg
      decide
    · intro fs n
      rfl

theorem composeFields_sort_spec (isArgs : Bool) (item : List (String × Option GqlBaseState)) :
    (composeFields isArgs item).sort = sortPathsSpec item := by
  induction item with
  | nil => simp [composeFields, sortPathsSpec]
  | cons p rest ih =>
    obtain ⟨field, e⟩ := p
    cases e with
    | none => simpa [composeFields, sortPathsSpec] using ih
    | some gql =>
      by_cases hc : gql.computed <;>
        cases hs : gql.sortable with
      | flag b =>
        cases b <;>
          simp [composeFields, sortPathsSpec, sortContrib, hc, hs, ih]
      | paths ps =>
        simp [composeFields, sortPathsSpec, sortContrib, hc, hs, ih]

/-- Claim C8: the sort paths collected by the record composer are exactly
the specification's — the field name for `sortable = true`, the dotted
`field.subpath` paths for a list-valued `sortable` — and the layout
`name` sortable-scalar, `address` nested with sortable `city` and
non-sortable `zip` yields exactly the paths `name` and `address.city`. -/
theorem C8_sort_paths :
    (∀ (isArgs : Bool) (item : List (String × Option GqlBaseState)),
      (composeFields isArgs item).sort = sortPathsSpec item) ∧
    (GqlObject "Person"
        [("name", some (GqlString { sortable := some true })),
         ("address", some (GqlObject "Address"
            [("city", some (GqlString { sortable := some true })),
             ("zip", some (GqlString {}))] {} false none))] {} false none).sortable
      = .paths ["name", "address.city"] := by
  constructor
  · exact composeFields_sort_spec
  · decide

theorem ruleSetOptional_idem (v : VRule) (b : Bool) :
    ruleSetOptional (ruleSetOptional v b) b = ruleSetOptional v b := by
  cases v <;> simp [ruleSetOptional]

theorem heapUpdate_same (h : DescrHeap) (id : Nat) (d : GqlBaseState) :
    heapUpdate h id d id = d := by
  simp [heapUpdate]

theorem heapUpdate_other (h : DescrHeap) (id j : Nat) (d : GqlBaseState) (hj : j ≠ id) :
    heapUpdate h id d j = h j := by
  simp [heapUpdate, hj]

theorem heapUpdate_collapse (h : DescrHeap) (id : Nat) (d d2 : GqlBaseState) :
    heapUpdate (heapUpdate h id d) id d2 = heapUpdate h id d2 := by
  funext j
  by_cases hj : j = id <;> simp [heapUpdate, hj]

/-- Claim C9: `GqlNullable` mutates the descriptor's validation rule in
place — the returned reference is the argument itself, no other heap cell
changes, and the one cell now carries the rule marked optional, so every
holder of the same reference observes the change — and wrapping twice
leaves the heap and the reference exactly as wrapping once. -/
theorem C9_gqlNullable_in_place (h : DescrHeap) (id : Nat) (v : VRule)
    (hv : (h id).validation = some v) :
    (GqlNullable (some id) h).1 = some id ∧
    (∀ j, j ≠ id → (GqlNullable (some id) h).2 j = h j) ∧
    ((GqlNullable (some id) h).2 id).validation = some (ruleSetOptional v true) ∧
    GqlNullable (GqlNullable (some id) h).1 (GqlNullable (some id) h).2
      = GqlNullable (some id) h := by
  refine ⟨by simp [GqlNullable, hv], ?_, ?_, ?_⟩
  · intro j hj
    simp [GqlNullable, hv, heapUpdate_other h id j _ hj]
  · simp [GqlNullable, hv, heapUpdate_same]
  · simp only [GqlNullable, hv]
    rw [heapUpdate_same]
    simp only [ruleSetOptional_idem, heapUpdate_collapse]

/-- Witness for C9 on a one-descriptor heap. -/
theorem C9_gqlNullable_in_place_witness :
    (((fun _ => GqlString {}) : DescrHeap) 0).validation
        = some (spreadDefaultType "string" none) ∧
    ((GqlNullable (some 0) (fun _ => GqlString {})).1 = some 0 ∧
      (∀ j, j ≠ 0 → (GqlNullable (some 0) (fun _ => GqlString {})).2 j
        = ((fun _ => GqlString {}) : DescrHeap) j) ∧
      ((GqlNullable (some 0) (fun _ => GqlString {})).2 0).validation
        = some (ruleSetOptional (spreadDefaultType "string" none) true) ∧
      GqlNullable (GqlNullable (some 0) (fun _ => GqlString {})).1
          (GqlNullable (some 0) (fun _ => GqlString {})).2
        = GqlNullable (some 0) (fun _ => GqlString {})) :=
  ⟨rfl,
    C9_gqlNullable_in_place (fun _ => GqlString {}) 0 (spreadDefaultType "string" none) rfl⟩

theorem strAppend_ne_empty (a b : String) (h : a ≠ "") : a ++ b ≠ "" := by
  intro hc
  apply h
  have hd := congrArg String.data hc
  rw [String.data_append] at hd
  have hnil : a.data = [] := (List.append_eq_nil.mp (by simpa using hd)).1
  cases a with
  | mk l =>
    simp only [String.data] at hnil
    simp [hnil]

theorem andOrFreeG_nonNull (t : GType) : andOrFreeG (.nonNull t) = andOrFreeG t := by
  simp [andOrFreeG]

theorem andOrFreeG_stripNonNull (t : GType) (h : andOrFreeG t = true) :
    andOrFreeG (stripNonNull t) = true := by
  cases t <;> simp_all [stripNonNull, andOrFreeG]

theorem andOrFreeG_stripList (t : GType) (h : andOrFreeG t = true) :
    andOrFreeG (stripList t) = true := by
  cases t <;> simp_all [stripList, andOrFreeG]

theorem hasKey_append {α : Type} (a b : List (String × α)) (k : String) :
    hasKey (a ++ b) k = (hasKey a k || hasKey b k) := by
  simp [hasKey]

theorem layoutEntriesFree_append (a b : List (String × Option GqlBaseState)) :
    layoutEntriesFree (a ++ b) = (layoutEntriesFree a && layoutEntriesFree b) := by
  induction a with
  | nil => simp [layoutEntriesFree]
  | cons p rest ih =>
    obtain ⟨k, e⟩ := p
    cases e <;> simp [layoutEntriesFree, ih, Bool.and_assoc]

theorem descrAndOrFree_nullable (d : GqlBaseState) :
    descrAndOrFree (gqlNullableVal d) = descrAndOrFree d := by
  cases hv : d.validation <;> simp [gqlNullableVal, hv, descrAndOrFree]

theorem descrFree_GqlStringFilter : descrAndOrFree GqlStringFilter = true := by decide

theorem descrFree_GqlIntFilter : descrAndOrFree GqlIntFilter = true := by decide

theorem descrFree_GqlFloatFilter : descrAndOrFree GqlFloatFilter = true := by decide

theorem descrFree_GqlBooleanFilter : descrAndOrFree GqlBooleanFilter = true := by decide

theorem descrFree_enumFilter (n2 : String) :
    descrAndOrFree (GqlObject (n2 ++ "Filter")
      (createStandardFilter (fun o =>
        mkGqlBaseScalar o.validation o.computed o.description (.flag false) (.enum n2)))
      {} false none) = true := by
  simp [descrAndOrFree_nullable, descrAndOrFree, GqlObject, createObject, composeFields,
    createStandardFilter, GqlBoolean, GqlArray, mkGqlBaseScalar, mkGqlBaseFull,
    spreadForceType, spreadDefaultType, gqlNullableVal, GqlBaseState.outputType,
    GqlBaseState.inputType, GqlBaseState.updateType, valOptional, ruleOptional,
    ruleSetOptional, applyFieldGetter, sortContrib, fieldRuleList, andOrFreeG,
    andOrFreeFields, hasKey]

theorem descr_free_output (d : GqlBaseState) (h : descrAndOrFree d = true) :
    andOrFreeG d.outputType = true := by
  simp only [descrAndOrFree, Bool.and_eq_true] at h
  by_cases ho : valOptional d = true <;>
    simp [GqlBaseState.outputType, ho, andOrFreeG, h.1]

theorem descr_free_input (d : GqlBaseState) (h : descrAndOrFree d = true) :
    andOrFreeG d.inputType = true := by
  simp only [descrAndOrFree, Bool.and_eq_true] at h
  by_cases ho : valOptional d = true <;>
    simp [GqlBaseState.inputType, ho, andOrFreeG, h.1.2]

theorem descr_free_updateType (d : GqlBaseState) (h : descrAndOrFree d = true) :
    andOrFreeG d.updateType = true := by
  simp only [descrAndOrFree, Bool.and_eq_true] at h
  have h3 := h.2
  cases hu : d.graphQLUpdateType <;> rw [hu] at h3 <;>
    simp_all [GqlBaseState.updateType, hu, andOrFreeG]

theorem composeFields_free (isArgs : Bool) (item : List (String × Option GqlBaseState))
    (hfree : layoutEntriesFree item = true) :
    andOrFreeFields (composeFields isArgs item).fields = true ∧
    andOrFreeFields (composeFields isArgs item).inputFields = true ∧
    andOrFreeFields (composeFields isArgs item).updateFields = true := by
  induction item with
  | nil => simp [composeFields, andOrFreeFields]
  | cons p rest ih =>
    obtain ⟨field, e⟩ := p
    cases e with
    | none =>
      have h := ih (by simpa [layoutEntriesFree] using hfree)
      simpa [composeFields] using h
    | some gql =>
      simp only [layoutEntriesFree, Bool.and_eq_true] at hfree
      obtain ⟨h1, h2⟩ := hfree
      obtain ⟨f1, f2, f3⟩ := ih h2
      by_cases hc : gql.computed
      · simp [composeFields, hc, andOrFreeFields, f1, f2, f3,
          descr_free_output gql h1, descr_free_input gql h1]
      · refine ⟨?_, ?_, ?_⟩ <;>
          simp only [composeFields, hc, if_false, Bool.false_eq_true, andOrFreeFields,
            Bool.and_eq_true]
        · exact ⟨descr_free_output gql h1, f1⟩
        · exact ⟨descr_free_input gql h1, f2⟩
        · refine ⟨?_, f3⟩
          split
          · exact descr_free_updateType gql h1
          · rw [andOrFreeG_nonNull]
            exact descr_free_updateType gql h1

theorem composeFields_keys (isArgs : Bool) (item : List (String × Option GqlBaseState))
    (k : String) (hk : hasKey item k = false) :
    hasKey (composeFields isArgs item).fields k = false ∧
    hasKey (composeFields isArgs item).inputFields k = false ∧
    hasKey (composeFields isArgs item).updateFields k = false := by
  induction item with
  | nil => simp [composeFields, hasKey]
  | cons p rest ih =>
    obtain ⟨field, e⟩ := p
    simp only [hasKey, List.any_cons, Bool.or_eq_false_iff] at hk
    obtain ⟨hk1, hk2⟩ := hk
    have hrest := ih hk2
    obtain ⟨r1, r2, r3⟩ := hrest
    cases e with
    | none => exact ⟨by simpa [composeFields] using r1, by simpa [composeFields] using r2,
        by simpa [composeFields] using r3⟩
    | some gql =>
      by_cases hc : gql.computed
      · refine ⟨?_, by simpa [composeFields, hc] using r2, by simpa [composeFields, hc] using r3⟩
        simp only [composeFields, hc, if_true, hasKey, List.any_cons, Bool.or_eq_false_iff]
        exact ⟨by simpa using hk1, r1⟩
      · refine ⟨?_, ?_, ?_⟩ <;>
          simp only [composeFields, hc, if_false, Bool.false_eq_true, hasKey, List.any_cons,
            Bool.or_eq_false_iff]
        · exact ⟨by simpa using hk1, r1⟩
        · exact ⟨by simpa using hk1, r2⟩
        · exact ⟨by simpa using hk1, r3⟩

theorem jsSet_append_of_not_mem {α : Type} (m : List (String × α)) (k : String) (v : α)
    (h : hasKey m k = false) : jsSet m k v = m ++ [(k, v)] := by
  simp only [hasKey] at h
  simp [jsSet, h]

theorem filterEntry_hasKey (fname : String) (ft : GType) (o k : String) (hf : fname ≠ k) :
    hasKey (filterEntry fname ft o) k = false := by
  cases ft with
  | scalar sn =>
    rw [filterEntry]
    split_ifs <;> simp [hasKey, hf]
  | object n2 f2 => simp [filterEntry, hasKey, hf]
  | enum n2 => simp [filterEntry, hasKey, hf]
  | inputObject n2 f2 => simp [filterEntry, hasKey]
  | list t => simp [filterEntry, hasKey]
  | nonNull t => simp [filterEntry, hasKey]
  | ref n2 => simp [filterEntry, hasKey]

theorem filterLayout_hasKey (fields : List (String × GType)) (o k : String)
    (hk : hasKey fields k = false) : hasKey (filterLayout fields o) k = false := by
  induction fields with
  | nil => rw [filterLayout]; simp [hasKey]
  | cons p rest ih =>
    obtain ⟨fname, ftype⟩ := p
    simp only [hasKey, List.any_cons, Bool.or_eq_false_iff] at hk
    rw [filterLayout, hasKey_append]
    have h1 := filterEntry_hasKey fname (stripNonNull (stripList (stripNonNull ftype))) o k
      (by simpa using hk.1)
    have h2 : hasKey (filterLayout rest o) k = false := ih hk.2
    simp [h1, h2]

theorem createObjectFilter_free_of (name : String) (fields : List (String × GType)) (o : String)
    (hAnd : hasKey fields "And" = false) (hOr : hasKey fields "Or" = false)
    (hlay : layoutEntriesFree (filterLayout fields (o ++ name)) = true)
    (ho : o ≠ "") :
    descrAndOrFree (createObjectFilter name fields o) = true := by
  have hkA := filterLayout_hasKey fields (o ++ name) "And" hAnd
  have hkO := filterLayout_hasKey fields (o ++ name) "Or" hOr
  obtain ⟨e1, e2, e3⟩ := composeFields_free false (filterLayout fields (o ++ name)) hlay
  obtain ⟨a1, a2, a3⟩ := composeFields_keys false (filterLayout fields (o ++ name)) "And" hkA
  obtain ⟨b1, b2, b3⟩ := composeFields_keys false (filterLayout fields (o ++ name)) "Or" hkO
  rw [createObjectFilter]
  simp only [if_neg ho]
  simp [GqlObject, createObject, applyFieldGetter, descrAndOrFree, andOrFreeG,
    e1, e2, e3, a1, a2, a3, b1, b2, b3]

theorem filterLayout_entriesFree :
    ∀ (n : Nat) (fields : List (String × GType)) (o : String), sizeOf fields ≤ n →
      andOrFreeFields fields = true → o ≠ "" →
      layoutEntriesFree (filterLayout fields o) = true := by
  intro n
  induction n using Nat.strong_induction_on with
  | _ n ih =>
    intro fields o hsz hfree ho
    cases fields with
    | nil => rw [filterLayout]; simp [layoutEntriesFree]
    | cons p rest =>
      obtain ⟨fname, ftype⟩ := p
      simp only [andOrFreeFields, Bool.and_eq_true] at hfree
      obtain ⟨hft0, hrestf⟩ := hfree
      have hszr : sizeOf rest < sizeOf ((fname, ftype) :: rest) := by
        simp
      have hrest : layoutEntriesFree (filterLayout rest o) = true := by
        exact ih (sizeOf rest) (by omega) rest o le_rfl hrestf ho
      rw [filterLayout, layoutEntriesFree_append, Bool.and_eq_true]
      refine ⟨?_, hrest⟩
      have hft : andOrFreeG (stripNonNull (stripList (stripNonNull ftype))) = true :=
        andOrFreeG_stripNonNull _ (andOrFreeG_stripList _ (andOrFreeG_stripNonNull _ hft0))
      have hszf : sizeOf (stripNonNull (stripList (stripNonNull ftype))) ≤ sizeOf ftype :=
        le_trans (stripNonNull_sizeOf _) (le_trans (stripList_sizeOf _) (stripNonNull_sizeOf _))
      have hszft : sizeOf ftype < sizeOf ((fname, ftype) :: rest) := by
        simp
        omega
      cases hcase : stripNonNull (stripList (stripNonNull ftype)) with
      | scalar sn =>
        rw [filterEntry]
        split_ifs <;>
          simp [layoutEntriesFree, descrFree_GqlStringFilter, descrFree_GqlIntFilter,
            descrFree_GqlFloatFilter, descrFree_GqlBooleanFilter]
      | object n2 f2 =>
        rw [hcase] at hszf hft
        rw [show andOrFreeG (GType.object n2 f2)
            = (!hasKey f2 "And" && (!hasKey f2 "Or" && andOrFreeFields f2)) from by
          simp [andOrFreeG, Bool.and_assoc]] at hft
        rw [Bool.and_eq_true, Bool.and_eq_true] at hft
        obtain ⟨hnA', hnO', hff2⟩ := hft
        have hnA : hasKey f2 "And" = false := by simpa using hnA'
        have hnO : hasKey f2 "Or" = false := by simpa using hnO'
        have hsf2 : sizeOf f2 < n := by
          have : sizeOf f2 < sizeOf (GType.object n2 f2) := by
            simp
          omega
        have hlay := ih (sizeOf f2) hsf2 f2 (o ++ n2) le_rfl hff2
          (strAppend_ne_empty o n2 ho)
        simp [filterEntry, layoutEntriesFree, descrAndOrFree_nullable,
          createObjectFilter_free_of n2 f2 o hnA hnO hlay ho]
      | enum n2 =>
        simp [filterEntry, layoutEntriesFree, descrAndOrFree_nullable, descrFree_enumFilter]
      | inputObject n2 f2 => simp [filterEntry, layoutEntriesFree]
      | list t => simp [filterEntry, layoutEntriesFree]
      | nonNull t => simp [filterEntry, layoutEntriesFree]
      | ref n2 => simp [filterEntry, layoutEntriesFree]

/-- Claim C7: the filter grammar generator attaches the self-referential
`And`/`Or` combinators — each a list of non-null values of the filter's
own input grammar, referenced by its synthesized name — only on the
outermost call (empty path prefix), and only to the input shape via the
name-matching getter; every grammar produced by recursion with a
non-empty prefix, and the read and update shapes of the outermost
grammar, carry no `And`/`Or` fields anywhere. -/
theorem applyFieldGetter_some (g : GFieldGetter) (fs : List (String × GType))
    (mode : FieldMode) (n : String) : applyFieldGetter (some g) fs mode n = g fs mode n := rfl

theorem C7_and_or_only_outermost (name : String) (fields : List (String × GType))
    (hfree : andOrFreeG (.object name fields) = true) (hname : name ≠ "") :
    (∀ outer, outer ≠ "" → descrAndOrFree (createObjectFilter name fields outer) = true) ∧
    ((createObjectFilter name fields "").graphQLInputType
        = .inputObject (name ++ "Filter" ++ "Input")
            ((composeFields false (filterLayout fields name)).inputFields ++
              [("And", .list (.nonNull (.ref (name ++ "Filter" ++ "Input")))),
               ("Or", .list (.nonNull (.ref (name ++ "Filter" ++ "Input"))))]) ∧
      andOrFreeFields (composeFields false (filterLayout fields name)).inputFields = true ∧
      andOrFreeG (createObjectFilter name fields "").graphQLType = true ∧
      andOrFreeG (createObjectFilter name fields "").graphQLUpdateType = true) := by
  rw [show andOrFreeG (GType.object name fields)
      = (!hasKey fields "And" && (!hasKey fields "Or" && andOrFreeFields fields)) from by
    simp [andOrFreeG, Bool.and_assoc]] at hfree
  rw [Bool.and_eq_true, Bool.and_eq_true] at hfree
  obtain ⟨hA', hO', hFF⟩ := hfree
  have hA : hasKey fields "And" = false := by simpa using hA'
  have hO : hasKey fields "Or" = false := by simpa using hO'
  constructor
  · intro outer ho
    exact createObjectFilter_free_of name fields outer hA hO
      (filterLayout_entriesFree (sizeOf fields) fields (outer ++ name) le_rfl hFF
        (strAppend_ne_empty outer name ho)) ho
  · have hlay := filterLayout_entriesFree (sizeOf fields) fields name le_rfl hFF hname
    have hkA := filterLayout_hasKey fields name "And" hA
    have hkO := filterLayout_hasKey fields name "Or" hO
    obtain ⟨e1, e2, e3⟩ := composeFields_free false (filterLayout fields name) hlay
    obtain ⟨a1, a2, a3⟩ := composeFields_keys false (filterLayout fields name) "And" hkA
    obtain ⟨b1, b2, b3⟩ := composeFields_keys false (filterLayout fields name) "Or" hkO
    refine ⟨?_, e2, ?_, ?_⟩
    · rw [createObjectFilter]
      simp only [GqlObject, createObject, eq_self_iff_true, and_self, if_true,
        applyFieldGetter_some]
      simp only [show ("" : String) ++ name = name from rfl]
      rw [jsSet_append_of_not_mem _ _ _ a2]
      rw [jsSet_append_of_not_mem]
      · simp
      · rw [hasKey_append, b2]
        simp [hasKey]
    · rw [createObjectFilter]
      simp only [show ("" : String) ++ name = name from rfl]
      simp [GqlObject, createObject, applyFieldGetter_some, andOrFreeG, e1, a1, b1]
    · rw [createObjectFilter]
      simp only [show ("" : String) ++ name = name from rfl]
      simp [GqlObject, createObject, applyFieldGetter_some, andOrFreeG, e3, a3, b3]

/-- Witness for C7 at a one-field entity type. -/
theorem C7_and_or_only_outermost_witness :
    (∀ outer, outer ≠ "" →
      descrAndOrFree (createObjectFilter "Person" [("age", .scalar "Int")] outer) = true) ∧
    ((createObjectFilter "Person" [("age", .scalar "Int")] "").graphQLInputType
        = .inputObject ("Person" ++ "Filter" ++ "Input")
            ((composeFields false (filterLayout [("age", .scalar "Int")] "Person")).inputFields ++
              [("And", .list (.nonNull (.ref ("Person" ++ "Filter" ++ "Input")))),
               ("Or", .list (.nonNull (.ref ("Person" ++ "Filter" ++ "Input"))))]) ∧
      andOrFreeFields
        (composeFields false (filterLayout [("age", .scalar "Int")] "Person")).inputFields = true ∧
      andOrFreeG (createObjectFilter "Person" [("age", .scalar "Int")] "").graphQLType = true ∧
      andOrFreeG (createObjectFilter "Person" [("age", .scalar "Int")] "").graphQLUpdateType
        = true) :=
  C7_and_or_only_outermost "Person" [("age", .scalar "Int")] (by decide) (by decide)
